import Mathlib

/-!
Verification of the batch generation orchestrator
(scripts/gemini_weather_pipeline.py, scripts/gemini_weather_pairs.py,
scripts/veo_video_batch.py, scripts/veo_video_generate.py).

The Python sources are shallowly embedded: pure fragments become Lean
functions, the stateful orchestration loops become explicit state-passing
functions over a modelled filesystem, wall-clock time is modelled as a
rational-number clock advanced by the `time.sleep` calls, and exceptions
become `Except` results.
-/

set_option maxHeartbeats 1000000
set_option maxRecDepth 8000

namespace Orchestrator

/-- Bytes of a file payload. -/
abbrev Bytes := List Nat

/-- A filesystem path, as a list of components. -/
abbrev FsPath := List String

/-- Index of the last occurrence of a character in a list, if any
(Python `str.rfind` restricted to a hit). -/
def lastIdxOf (c : Char) (l : List Char) : Option Nat :=
  match l.reverse.findIdx? (fun x => x = c) with
  | none => none
  | some j => some (l.length - 1 - j)

/-- Model of `pathlib.PurePath.stem`: the file name without its last
suffix.  The suffix is `name[i:]` for `i` the last index of a dot,
provided `0 < i < len(name) - 1`; otherwise the stem is the whole name. -/
def pathStem (name : String) : String :=
  let l := name.toList
  match lastIdxOf '.' l with
  | none => name
  | some i => if 0 < i ∧ i < l.length - 1 then String.mk (l.take i) else name

/-- Model of `pathlib.PurePath.suffix`: the last extension including the
dot, or the empty string. -/
def pathSuffix (name : String) : String :=
  let l := name.toList
  match lastIdxOf '.' l with
  | none => ""
  | some i => if 0 < i ∧ i < l.length - 1 then String.mk (l.drop i) else ""

/-- Python `needle in hay` on strings: substring containment. -/
def strContains (hay needle : String) : Bool :=
  let h := hay.toList
  let n := needle.toList
  (List.range (h.length + 1)).any (fun i => n.isPrefixOf (h.drop i))

/-- Python `str.lower` (ASCII-adequate model). -/
def strLower (s : String) : String :=
  String.mk (s.toList.map Char.toLower)

/-- Test from `pick_reference_frames`: does the frame stem contain the
literal token `"0000"` (Python `"0000" in candidate.stem`)? -/
def hasFirstMarker (name : String) : Bool :=
  strContains (pathStem name) "0000"

/-- Test from `pick_reference_frames`: does the frame stem contain
`"0008"`, or `"last"` case-insensitively (Python
`"0008" in candidate.stem or "last" in candidate.stem.lower()`)? -/
def hasLastMarker (name : String) : Bool :=
  strContains (pathStem name) "0008" || strContains (strLower (pathStem name)) "last"

/-- Embedding of `veo_video_batch.pick_reference_frames`: raises
`ValueError` on an empty list; otherwise starts from the first and last
list entries, replaces the first by the earliest frame whose stem
contains `"0000"`, replaces the last by the latest frame whose stem
contains `"0008"` or (case-insensitively) `"last"`, and — by Python
operator precedence — returns
`(first, last if len(frames) > 1 else first)`. -/
def pick_reference_frames (frames : List String) : Except String (String × String) :=
  match frames with
  | [] => .error "No frames provided"
  | f :: fs =>
    let first :=
      match (f :: fs).find? hasFirstMarker with
      | some c => c
      | none => f
    let last :=
      match (f :: fs).reverse.find? hasLastMarker with
      | some c => c
      | none => (f :: fs).getLast (List.cons_ne_nil f fs)
    .ok (first, if (f :: fs).length > 1 then last else first)

/-- The first-frame choice in the words of the spec: the earliest frame
whose stem contains `"0000"`, else the lexicographically-first frame of
the (sorted) list, i.e. its head. -/
def specFirstFrame (frames : List String) (h : frames ≠ []) : String :=
  match (frames.filter hasFirstMarker).head? with
  | some c => c
  | none => frames.head h

/-- The last-frame choice in the words of the spec: the latest frame
whose stem contains `"0008"` or, case-insensitively, `"last"`, else the
lexicographically-last frame of the (sorted) list; with the special case
that a one-element list yields its sole frame. -/
def specLastFrame (frames : List String) (h : frames ≠ []) : String :=
  if frames.length = 1 then specFirstFrame frames h
  else
    match (frames.filter hasLastMarker).getLast? with
    | some c => c
    | none => frames.getLast h

/-- Boolean lexicographic comparison of character lists by code point,
modelling Python string comparison (used by `sorted`). -/
def lexLe : List Char → List Char → Bool
  | [], _ => true
  | _ :: _, [] => false
  | a :: as, b :: bs => if a < b then true else if a = b then lexLe as bs else false

/-- Lexicographic comparison of strings by code point. -/
def strLe (s t : String) : Bool :=
  lexLe s.toList t.toList

/-- The ordering relation under which the scripts list directory
entries (Python `sorted`). -/
def sLe (s t : String) : Prop :=
  strLe s t = true

instance : DecidableRel sLe := fun s t => inferInstanceAs (Decidable (strLe s t = true))

/-- Canonical sorted listing of a set of directory entries. -/
def sortNames (l : List String) : List String :=
  List.insertionSort sLe l

/-- Image-extension test shared by the enumerators: Python
`path.suffix.lower() in {".png", ".jpg", ".jpeg"}`. -/
def isImageName (name : String) : Bool :=
  let s := strLower (pathSuffix name)
  s = ".png" || s = ".jpg" || s = ".jpeg"

/-- Embedding of `gemini_weather_pipeline.iter_images`: iterate the
recursive listing of the input root in sorted order and keep the plain
files with an image extension.  `entries` is the raw recursive listing
(in unspecified operating-system order) and `isFile` tells which
entries are plain files. -/
def iter_images (entries : List String) (isFile : String → Bool) : List String :=
  (sortNames entries).filter (fun p => isFile p && isImageName p)

/-- Embedding of `veo_video_batch.group_folders` for an existing root:
the subdirectories of the root in sorted order.  `entries` is the raw
listing and `isDir` tells which entries are directories. -/
def group_folders (entries : List String) (isDir : String → Bool) : List String :=
  sortNames (entries.filter isDir)

/-- Embedding of `veo_video_batch.list_variant_frames`: the entries of
the variant folder with an image extension, in sorted order. -/
def list_variant_frames (entries : List String) : List String :=
  sortNames (entries.filter (fun p => isImageName p))

/-- Reference-frame selection performed by
`veo_video_batch.process_scene_folder` for one scene: for each variant
in order, look up the variant folder (`none` when the folder does not
exist), list its frames, skip the variant when there are none, and
otherwise pick the reference frames. -/
def processSceneRefs (variants : List String) (framesOf : String → Option (List String)) :
    List (Except String (String × String)) :=
  variants.filterMap fun v =>
    match framesOf v with
    | none => none
    | some raw =>
      if (list_variant_frames raw).isEmpty then none
      else some (pick_reference_frames (list_variant_frames raw))

/-- Prompt loads performed by `veo_video_batch.process_scene_folder`
for one scene (lines 198-212): `load_prompt_text(variant.prompt_path)`
is called directly — with no cache — for every variant whose folder
exists and holds at least one frame, and before the output-existence
skip check.  `variants` pairs each variant name with its prompt path;
`framesOf scene name` is the raw listing of the variant folder (`none`
when the folder does not exist). -/
def veoSceneLoads (variants : List (String × FsPath))
    (framesOf : String → String → Option (List String)) (scene : String) : List FsPath :=
  variants.filterMap fun v =>
    match framesOf scene v.1 with
    | none => none
    | some raw =>
      if (list_variant_frames raw).isEmpty then none else some v.2

/-- Prompt loads of a whole `veo_video_batch.main` run: one
`process_scene_folder` per scene, in order. -/
def veoRunLoads (variants : List (String × FsPath))
    (framesOf : String → String → Option (List String)) (scenes : List String) : List FsPath :=
  (scenes.map (veoSceneLoads variants framesOf)).flatten

/-! ### Rate-limited retry executor (gemini_weather_pipeline.process_images) -/

/-- Constant `MAX_RETRIES` of `gemini_weather_pipeline`. -/
def MAX_RETRIES : Nat := 3

/-- Constant `DEFAULT_RATE_LIMIT_QPS` of `gemini_weather_pipeline`. -/
def DEFAULT_RATE_LIMIT_QPS : ℚ := 1 / 2

/-- The inter-call delay computed by `process_images`:
`delay = 1.0 / max(rate_limit_qps, 1e-6)`. -/
def procDelay (qps : ℚ) : ℚ :=
  1 / max qps (1 / 1000000)

/-- The attempt numbers of the retry loop,
`range(1, MAX_RETRIES + 1)` = `[1, 2, 3]`. -/
def attemptList : List Nat :=
  (List.range MAX_RETRIES).map (· + 1)

/-- Embedding of the retry loop of `process_images` (lines 221-238) over
a list of remaining attempt numbers.  `call a` is the outcome of the
provider call on attempt `a`.  Returns the final outcome (`.error e`
models the bare `raise` that re-raises the last failure once
`attempt == MAX_RETRIES`), the list of attempts actually performed, and
the list of back-off sleeps (`time.sleep(delay * attempt)` between a
failed attempt and the next one). -/
def retryFrom (delay : ℚ) (call : Nat → Except String Bytes) :
    List Nat → Except String Bytes × List Nat × List ℚ
  | [] => (.error "", [], [])
  | a :: rest =>
    match call a with
    | .ok b => (.ok b, [a], [])
    | .error e =>
      match rest with
      | [] => (.error e, [a], [])
      | r :: rs =>
        let (res, as, ss) := retryFrom delay call (r :: rs)
        (res, a :: as, delay * (a : ℚ) :: ss)

/-- A modelled filesystem: each path optionally holds file bytes. -/
def Fs : Type := FsPath → Option Bytes

/-- Writing one file (`out_path.write_bytes(result_bytes)`). -/
def fsUpdate (fs : Fs) (p : FsPath) (b : Bytes) : Fs :=
  fun q => if q = p then some b else fs q

/-- Embedding of the per-unit orchestration loop shared by
`process_images` (lines 210-240) and `process_scene_folder`
(lines 198-227): for each work unit in order, skip it when a file
already exists at its output path, otherwise run the provider call
under the retry loop, write the resulting bytes on success, and
re-raise the failure (aborting the whole run) when retries are
exhausted.  Returns the final filesystem, the list of `(unit, attempt)`
provider calls performed, and whether the run completed without an
unhandled exception. -/
def runUnits (delay : ℚ) (outcome : Nat → Nat → Except String Bytes) (outPath : Nat → FsPath) :
    List Nat → Fs → Fs × List (Nat × Nat) × Bool
  | [], fs => (fs, [], true)
  | u :: rest, fs =>
    if (fs (outPath u)).isSome then runUnits delay outcome outPath rest fs
    else
      match retryFrom delay (outcome u) attemptList with
      | (.ok b, as, _) =>
        let (fs2, cs, done) := runUnits delay outcome outPath rest (fsUpdate fs (outPath u) b)
        (fs2, as.map (fun a => (u, a)) ++ cs, done)
      | (.error _, as, _) => (fs, as.map (fun a => (u, a)), false)

/-! ### Timed trace of process_images

Wall-clock time is a rational clock; `time.sleep(d)` advances it by
exactly `d` and the provider call on attempt `a` of unit `u` takes
`dur u a ≥ 0`.  The trace records the start time of every provider
call; the recorded times are therefore lower bounds on real elapsed
time, which is what the rate-limit claim is about. -/

/-- Timed retry loop of one work unit: records the start time of each
attempt, sleeps `delay * attempt` after a non-final failed attempt, and
returns `none` as final time when the last attempt failed (the
exception propagates). -/
def unitAttemptsT (delay : ℚ) (dur : Nat → ℚ) (ok : Nat → Bool) :
    List Nat → ℚ → List ℚ × Option ℚ
  | [], t => ([], some t)
  | a :: rest, t =>
    let t1 := t + dur a
    if ok a then ([t], some t1)
    else
      match rest with
      | [] => ([t], none)
      | r :: rs =>
        let (es, fin) := unitAttemptsT delay dur ok (r :: rs) (t1 + delay * (a : ℚ))
        (t :: es, fin)

/-- Timed per-unit loop of `process_images`: a skipped unit performs no
call and no sleep (`continue`); a successful unit is followed by
`time.sleep(delay)` before the next unit; retry exhaustion aborts the
run.  Returns all provider-call start times and the final clock
(`none` when the run aborted). -/
def runTimed (delay : ℚ) (skip : Nat → Bool) (dur : Nat → Nat → ℚ) (ok : Nat → Nat → Bool) :
    List Nat → ℚ → List ℚ × Option ℚ
  | [], t => ([], some t)
  | u :: rest, t =>
    if skip u then runTimed delay skip dur ok rest t
    else
      match unitAttemptsT delay (dur u) (ok u) attemptList t with
      | (es, none) => (es, none)
      | (es, some t1) =>
        let (es2, fin) := runTimed delay skip dur ok rest (t1 + delay)
        (es ++ es2, fin)

/-! ### Prompt template cache -/

/-- A prompt template: `positive` and `negative` text. -/
structure PromptTemplate where
  positive : String
  negative : String
deriving DecidableEq, Inhabited

/-- Python `str.strip`: drop whitespace from both ends. -/
def pyStrip (s : String) : String :=
  String.mk (((s.toList.dropWhile Char.isWhitespace).reverse.dropWhile Char.isWhitespace).reverse)

/-- Embedding of `load_prompt_template`: read the prompt document at a
path (the per-run file contents are the oracle `fc`) and trim both
fields. -/
def load_prompt_template (fc : FsPath → String × String) (p : FsPath) : PromptTemplate :=
  ⟨pyStrip (fc p).1, pyStrip (fc p).2⟩

/-- One cache access as performed at the top of the variant loop
(`template = prompt_cache.get(...); if template is None: load; store`).
Returns the template, the updated cache, and whether a load happened. -/
def cacheStep (fc : FsPath → String × String) (cache : List (FsPath × PromptTemplate))
    (p : FsPath) : PromptTemplate × List (FsPath × PromptTemplate) × Bool :=
  match cache.find? (fun e => e.1 = p) with
  | some e => (e.2, cache, false)
  | none =>
    let t := load_prompt_template fc p
    (t, (p, t) :: cache, true)

/-- All cache accesses of one run, in order. -/
def cacheRun (fc : FsPath → String × String) :
    List FsPath → List (FsPath × PromptTemplate) →
      List (PromptTemplate × Bool) × List (FsPath × PromptTemplate)
  | [], cache => ([], cache)
  | p :: ps, cache =>
    let (t, cache1, loaded) := cacheStep fc cache p
    let (outs, cache2) := cacheRun fc ps cache1
    ((t, loaded) :: outs, cache2)

/-- The paths actually loaded from disk during a run of cache
accesses. -/
def loadedPaths (fc : FsPath → String × String) :
    List FsPath → List (FsPath × PromptTemplate) → List FsPath
  | [], _ => []
  | p :: ps, cache =>
    let (_, cache1, loaded) := cacheStep fc cache p
    (if loaded then [p] else []) ++ loadedPaths fc ps cache1

/-! ### Configuration defaulting -/

/-- Variant creativity resolution, `float(item.get("creativity", 0.2))`
in `gemini_weather_pipeline.load_config`, `gemini_weather_pairs.load_config`
and `gemini_weather_sample.load_config`. -/
def variant_load_creativity (c : Option ℚ) : ℚ :=
  c.getD 0.2

/-- Variant fidelity resolution, `float(item.get("fidelity", 0.7))` in
the same three loaders. -/
def variant_load_fidelity (f : Option ℚ) : ℚ :=
  f.getD 0.7

/-- Output raster resolution of `gemini_weather_pipeline.load_config`:
`int(data.get("output_width", 1024))`, `int(data.get("output_height", 1024))`. -/
def pipeline_load_output_raster (w h : Option ℤ) : ℤ × ℤ :=
  (w.getD 1024, h.getD 1024)

/-- Output raster resolution of `gemini_weather_pairs.load_config`:
`int(data.get("output_width", 1344))`, `int(data.get("output_height", 768))`. -/
def pairs_load_output_raster (w h : Option ℤ) : ℤ × ℤ :=
  (w.getD 1344, h.getD 768)

/-- Output raster resolution of `gemini_weather_sample.load_config`,
identical to the pairs loader. -/
def sample_load_output_raster (w h : Option ℤ) : ℤ × ℤ :=
  (w.getD 1344, h.getD 768)

/-- Duration resolution of `veo_video_generate.load_config`:
`int(data.get("duration_seconds", 6))`. -/
def generate_load_duration (d : Option ℤ) : ℤ :=
  d.getD 6

/-- Python integer `or` with a fallback: `a or b` is `b` when `a` is
`None` or `0`, else the value of `a`. -/
def pyOrInt (a : Option ℤ) (b : ℤ) : ℤ :=
  match a with
  | none => b
  | some d => if d = 0 then b else d

/-- Duration resolution of `veo_video_batch.construct_job_config`:
`int(variant_cfg.duration_seconds or defaults.get("duration_seconds", 6))`. -/
def batch_resolve_duration (variantDur defaultsDur : Option ℤ) : ℤ :=
  pyOrInt variantDur (defaultsDur.getD 6)

/-! ### Output path layout -/

/-- Output path of one image unit in
`gemini_weather_pipeline.process_images` (lines 210-214):
`output_root / variant.name / relative.parent / (stem + "_" + variant.name + ".png")`. -/
def pipeline_out_path (outputRoot : FsPath) (variantName : String) (relParent : FsPath)
    (stem : String) : FsPath :=
  outputRoot ++ [variantName] ++ relParent ++ [stem ++ "_" ++ variantName ++ ".png"]

/-- Output path of one image unit in
`gemini_weather_pairs.process_folder`:
`OUTPUT_ROOT / folder.name / variant.name / (stem + "_" + variant.name + ".png")`
with `OUTPUT_ROOT = Path("outputimg")`. -/
def pairs_out_path (folderName variantName stem : String) : FsPath :=
  ["outputimg"] ++ [folderName] ++ [variantName] ++ [stem ++ "_" ++ variantName ++ ".png"]

/-- Output path of one video unit in
`veo_video_batch.construct_job_config` (lines 176-178):
`output_root / scene_name / variant.name / (scene_name + "_" + variant.name + ".mp4")`. -/
def video_out_path (outputRoot : FsPath) (sceneName variantName : String) : FsPath :=
  outputRoot ++ [sceneName] ++ [variantName] ++ [sceneName ++ "_" ++ variantName ++ ".mp4"]

/-- The image-run layout stated by the specification:
`outputRoot/<groupName>/<variantName>/<stem>_<variantName>.png`. -/
def spec_image_out_path (outputRoot : FsPath) (groupName variantName stem : String) : FsPath :=
  outputRoot ++ [groupName] ++ [variantName] ++ [stem ++ "_" ++ variantName ++ ".png"]

/-- The video-run layout stated by the specification:
`outputRoot/<sceneName>/<variantName>/<sceneName>_<variantName>.mp4`. -/
def spec_video_out_path (outputRoot : FsPath) (sceneName variantName : String) : FsPath :=
  outputRoot ++ [sceneName] ++ [variantName] ++ [sceneName ++ "_" ++ variantName ++ ".mp4"]

/-! ### Async operation poller (veo_video_generate.run_generation) -/

/-- One generated video of an operation result: inline bytes or a
remote URI, either possibly absent. -/
structure VeoVideo where
  video_bytes : Option Bytes
  uri : Option String

/-- An async operation handle as observed by the poller. -/
structure VeoOperation where
  done : Bool
  error : Option String
  videos : Option (List VeoVideo)

/-- Python truthiness of an optional byte string (`if video.video_bytes:`
is false both for `None` and for empty bytes). -/
def bytesTruthy : Option Bytes → Bool
  | none => false
  | some b => !b.isEmpty

/-- Python truthiness of an optional string. -/
def strTruthy : Option String → Bool
  | none => false
  | some s => !s.isEmpty

/-- Embedding of the poll loop of `run_generation` (lines 167-171):
while the operation is not done, sleep `poll_interval_seconds` and
re-query it.  `getOp k` is the result of the `k`-th
`client.operations.get` call; `fuel` bounds the unrolling of the
unbounded `while`.  Returns the terminal operation, the number of poll
calls made, and the sleeps performed. -/
def pollLoop (interval : ℚ) (getOp : Nat → VeoOperation) :
    Nat → VeoOperation → Nat → Option (VeoOperation × Nat × List ℚ)
  | 0, op, k =>
    if op.done then some (op, k, List.replicate k interval) else none
  | fuel + 1, op, k =>
    if op.done then some (op, k, List.replicate k interval)
    else pollLoop interval getOp fuel (getOp k) (k + 1)

/-- Embedding of the result materialization of `run_generation`
(lines 173-199): raise on a terminal error, raise when no videos were
returned, write inline bytes when present (and non-empty), otherwise
fetch the URI, otherwise raise. -/
def materialize (fetch : String → Bytes) (op : VeoOperation) : Except String Bytes :=
  if op.error.isSome then .error "Video generation failed"
  else
    match op.videos with
    | none => .error "No video content returned from operation"
    | some [] => .error "No video content returned from operation"
    | some (v :: _) =>
      if bytesTruthy v.video_bytes then .ok (v.video_bytes.getD [])
      else if strTruthy v.uri then .ok (fetch (v.uri.getD ""))
      else .error "Video response missing data and URI"

/-- Writing the materialized result at the output path (no write on a
raised error). -/
def run_generation_write (outPath : FsPath) (fs : Fs) : Except String Bytes → Fs
  | .ok b => fsUpdate fs outPath b
  | .error _ => fs

theorem find?_eq_head?_filter {α : Type} (p : α → Bool) (l : List α) :
    l.find? p = (l.filter p).head? := by
  induction l with
  | nil => rfl
  | cons a l ih =>
    cases h : p a
    · rw [List.find?_cons_of_neg _ (by simp [h]), List.filter_cons_of_neg (by simp [h]), ih]
    · rw [List.find?_cons_of_pos _ h, List.filter_cons_of_pos h, List.head?_cons]

theorem reverse_find?_eq_getLast?_filter {α : Type} (p : α → Bool) (l : List α) :
    l.reverse.find? p = (l.filter p).getLast? := by
  rw [find?_eq_head?_filter, List.filter_reverse, List.head?_reverse]

theorem lexLe_refl (l : List Char) : lexLe l l = true := by
  induction l with
  | nil => rfl
  | cons a as ih => simp [lexLe, ih]

theorem lexLe_total (a b : List Char) : lexLe a b = true ∨ lexLe b a = true := by
  induction a generalizing b with
  | nil => left; rfl
  | cons x xs ih =>
    cases b with
    | nil => right; rfl
    | cons y ys =>
      rcases lt_trichotomy x y with h | h | h
      · left; simp [lexLe, h]
      · subst h
        rcases ih ys with h2 | h2
        · left; simp [lexLe, h2]
        · right; simp [lexLe, h2]
      · right; simp [lexLe, h]

theorem lexLe_antisymm (a b : List Char) (h1 : lexLe a b = true) (h2 : lexLe b a = true) :
    a = b := by
  induction a generalizing b with
  | nil =>
    cases b with
    | nil => rfl
    | cons y ys => simp [lexLe] at h2
  | cons x xs ih =>
    cases b with
    | nil => simp [lexLe] at h1
    | cons y ys =>
      rcases lt_trichotomy x y with h | h | h
      · exfalso
        simp [lexLe, not_lt.mpr (le_of_lt h), (ne_of_lt h).symm] at h2
      · subst h
        simp only [lexLe, lt_irrefl, if_false, if_pos rfl, if_neg (lt_irrefl x)] at h1 h2
        rw [ih ys h1 h2]
      · exfalso
        simp [lexLe, not_lt.mpr (le_of_lt h), (ne_of_lt h).symm] at h1

theorem lexLe_trans (a b c : List Char) (h1 : lexLe a b = true) (h2 : lexLe b c = true) :
    lexLe a c = true := by
  induction a generalizing b c with
  | nil => rfl
  | cons x xs ih =>
    cases b with
    | nil => simp [lexLe] at h1
    | cons y ys =>
      cases c with
      | nil => simp [lexLe] at h2
      | cons z zs =>
        by_cases hxy : x < y
        · by_cases hyz : y < z
          · simp [lexLe, lt_trans hxy hyz]
          · by_cases hyz2 : y = z
            · subst hyz2; simp [lexLe, hxy]
            · simp [lexLe, hyz, hyz2] at h2
        · by_cases hxy2 : x = y
          · subst hxy2
            simp only [lexLe, lt_irrefl, if_false, if_pos rfl, if_neg (lt_irrefl x)] at h1
            by_cases hyz : x < z
            · simp [lexLe, hyz]
            · by_cases hyz2 : x = z
              · subst hyz2
                simp only [lexLe, lt_irrefl, if_false, if_pos rfl,
                  if_neg (lt_irrefl x)] at h2 ⊢
                exact ih ys zs h1 h2
              · simp [lexLe, hyz, hyz2] at h2
          · simp [lexLe, hxy, hxy2] at h1

theorem sLe_refl (s : String) : sLe s s :=
  lexLe_refl s.toList

instance : IsTotal String sLe :=
  ⟨fun s t => lexLe_total s.toList t.toList⟩

instance : IsTrans String sLe :=
  ⟨fun s t u h1 h2 => lexLe_trans s.toList t.toList u.toList h1 h2⟩

instance : IsAntisymm String sLe := by
  refine ⟨fun s t h1 h2 => ?_⟩
  have h := lexLe_antisymm s.toList t.toList h1 h2
  cases s with
  | mk d1 =>
    cases t with
    | mk d2 => exact congrArg String.mk (by simpa using h)

theorem sorted_le_getLast :
    ∀ (l : List String) (hne : l ≠ []), List.Sorted sLe l →
      ∀ x ∈ l, sLe x (l.getLast hne) := by
  intro l
  induction l with
  | nil => intro hne; exact absurd rfl hne
  | cons a t ih =>
    intro _ hs x hx
    cases t with
    | nil =>
      rcases List.mem_singleton.mp hx with rfl
      exact sLe_refl x
    | cons b u =>
      rw [List.getLast_cons (List.cons_ne_nil b u)]
      rcases List.mem_cons.mp hx with rfl | hx2
      · exact (List.sorted_cons.mp hs).1 _ (List.getLast_mem (List.cons_ne_nil b u))
      · exact ih (List.cons_ne_nil b u) (List.sorted_cons.mp hs).2 x hx2

/-- C2: for every non-empty sorted list of frame files, the selection
returns as first frame the earliest frame whose stem contains `"0000"`
(else the lexicographically-first frame), and as last frame the latest
frame whose stem contains `"0008"` or, case-insensitively, `"last"`
(else the lexicographically-last frame); a single frame is both first
and last.  The head and last of the sorted list are indeed the
lexicographic extremes, and the three concrete examples of the
specification hold. -/
theorem C2_reference_frame_selection (frames : List String) (hne : frames ≠ [])
    (hs : List.Sorted sLe frames) :
    pick_reference_frames frames = .ok (specFirstFrame frames hne, specLastFrame frames hne)
    ∧ (∀ x ∈ frames, sLe (frames.head hne) x)
    ∧ (∀ x ∈ frames, sLe x (frames.getLast hne))
    ∧ pick_reference_frames ["0000.png", "0003.png", "0008.png"] =
        .ok ("0000.png", "0008.png")
    ∧ pick_reference_frames ["a.png", "b.png"] = .ok ("a.png", "b.png")
    ∧ pick_reference_frames ["x.png"] = .ok ("x.png", "x.png") := by
  obtain ⟨f, fs, rfl⟩ := List.exists_cons_of_ne_nil hne
  refine ⟨?_, ?_, sorted_le_getLast _ hne hs, by rfl, by rfl, by rfl⟩
  · cases fs with
    | nil =>
      simp only [pick_reference_frames, specFirstFrame, specLastFrame,
        find?_eq_head?_filter, List.length_singleton, if_pos rfl]
      rfl
    | cons g gs =>
      simp only [pick_reference_frames, specFirstFrame, specLastFrame,
        reverse_find?_eq_getLast?_filter, find?_eq_head?_filter, List.head_cons]
      rw [if_pos (by simp only [List.length_cons]; omega), if_neg (by simp),
        List.filter_reverse, List.head?_reverse]
  · intro x hx
    rcases List.mem_cons.mp hx with rfl | hx2
    · exact sLe_refl x
    · exact (List.sorted_cons.mp hs).1 x hx2

/-- Witness for C2 at the concrete sorted frame list
`[0000.png, 0003.png, 0008.png]`. -/
theorem C2_witness :
    (["0000.png", "0003.png", "0008.png"] : List String) ≠ []
    ∧ List.Sorted sLe ["0000.png", "0003.png", "0008.png"]
    ∧ pick_reference_frames ["0000.png", "0003.png", "0008.png"] =
        .ok ("0000.png", "0008.png") := by
  refine ⟨by decide, by decide, ?_⟩
  exact (C2_reference_frame_selection ["0000.png", "0003.png", "0008.png"]
    (by decide) (by decide)).2.2.2.1

/-- C6 counterexample: an absent output raster in
`gemini_weather_pipeline.load_config` resolves to 1024×1024, not to the
1344×768 the claim states for image runs. -/
theorem C6_raster_default_counterexample :
    pipeline_load_output_raster none none = (1024, 1024)
    ∧ pipeline_load_output_raster none none ≠ ((1344 : ℤ), (768 : ℤ)) := by
  exact ⟨rfl, by decide⟩

/-- C6 (amended): an absent creativity resolves to 0.2 and an absent
fidelity to 0.7 in all three image-config loaders; an absent output
raster resolves to 1344×768 in the pairs and sample loaders but to
1024×1024 in the pipeline loader; an absent duration resolves to 6
seconds in both video resolvers. -/
theorem C6_config_defaults :
    variant_load_creativity none = 0.2
    ∧ variant_load_fidelity none = 0.7
    ∧ pairs_load_output_raster none none = (1344, 768)
    ∧ sample_load_output_raster none none = (1344, 768)
    ∧ pipeline_load_output_raster none none = (1024, 1024)
    ∧ generate_load_duration none = 6
    ∧ batch_resolve_duration none none = 6 :=
  ⟨rfl, rfl, rfl, rfl, rfl, rfl, rfl⟩

/-- C7 counterexample: a pipeline image unit with a nested group
directory is written under `outputRoot/<variant>/<group>/…`, not under
the claimed `outputRoot/<group>/<variant>/…`. -/
theorem C7_layout_counterexample :
    pipeline_out_path ["out"] "sunny" ["groupA"] "frame"
      = ["out", "sunny", "groupA", "frame_sunny.png"]
    ∧ pipeline_out_path ["out"] "sunny" ["groupA"] "frame"
      ≠ spec_image_out_path ["out"] "groupA" "sunny" "frame" := by
  exact ⟨rfl, by decide⟩

/-- C7 (amended): the pairs image runs and the video runs place the
group/scene directory before the variant directory, exactly as the
specification states, while `gemini_weather_pipeline` places the
variant directory first, before the relative group directory. -/
theorem C7_output_layout (outputRoot : FsPath)
    (folderName variantName stem sceneName : String) (relParent : FsPath) :
    pairs_out_path folderName variantName stem
      = spec_image_out_path ["outputimg"] folderName variantName stem
    ∧ video_out_path outputRoot sceneName variantName
      = spec_video_out_path outputRoot sceneName variantName
    ∧ pipeline_out_path outputRoot variantName relParent stem
      = outputRoot ++ [variantName] ++ relParent ++ [stem ++ "_" ++ variantName ++ ".png"] :=
  ⟨rfl, rfl, rfl⟩

theorem attemptList_eq : attemptList = [1, 2, 3] := rfl

theorem procDelay_pos (qps : ℚ) : 0 < procDelay qps := by
  unfold procDelay
  have h : (0 : ℚ) < max qps (1 / 1000000) :=
    lt_max_of_lt_right (by norm_num)
  positivity

/-- C1 counterexample: the base delay used by the code is
`1 / max(rateLimitQps, 1e-6)`, not `1 / rateLimitQps`; at
`rateLimitQps = 1e-7` the sleep before the first retry is 1e6 seconds,
not the 1e7 seconds the claim requires. -/
theorem C1_base_delay_counterexample :
    (retryFrom (procDelay (1 / 10000000))
        (fun a => if a = 1 then .error "boom" else .ok [7]) attemptList).2.2
      = [(1000000 : ℚ)]
    ∧ ((1000000 : ℚ)) ≠ (1 / (1 / 10000000 : ℚ)) * 1 := by
  constructor
  · have hd : procDelay (1 / 10000000) = 1000000 := by
      unfold procDelay
      rw [max_eq_right (by norm_num)]
      norm_num
    rw [attemptList_eq, hd]
    simp [retryFrom]
  · norm_num

/-- C1 (amended: the base delay is `1 / max(rateLimitQps, 1e-6)`, which
equals `1 / rateLimitQps` for every rate of at least 1e-6 qps): the
executor performs up to `MAX_RETRIES = 3` total attempts, sleeping
`baseDelay * n` before retry attempt `n`; a call failing twice and
succeeding on the third attempt returns the success after exactly 3
attempts, a call failing on all 3 attempts propagates the last failure
after exactly 3 attempts, and the loop never consults a 4th attempt. -/
theorem C1_retry_budget (qps : ℚ) (call call2 : Nat → Except String Bytes) (b : Bytes)
    (e1 e2 e3 : String) :
    (call 1 = .error e1 → call 2 = .error e2 → call 3 = .ok b →
      retryFrom (procDelay qps) call attemptList
        = (.ok b, [1, 2, 3], [procDelay qps * 1, procDelay qps * 2]))
    ∧ (call 1 = .error e1 → call 2 = .error e2 → call 3 = .error e3 →
      retryFrom (procDelay qps) call attemptList
        = (.error e3, [1, 2, 3], [procDelay qps * 1, procDelay qps * 2]))
    ∧ ((1 : ℚ) / 1000000 ≤ qps → procDelay qps = 1 / qps)
    ∧ ((∀ a, 1 ≤ a → a ≤ MAX_RETRIES → call a = call2 a) →
      retryFrom (procDelay qps) call attemptList
        = retryFrom (procDelay qps) call2 attemptList) := by
  refine ⟨?_, ?_, ?_, ?_⟩
  · intro h1 h2 h3
    rw [attemptList_eq]
    simp [retryFrom, h1, h2, h3]
  · intro h1 h2 h3
    rw [attemptList_eq]
    simp [retryFrom, h1, h2, h3]
  · intro hq
    unfold procDelay
    rw [max_eq_left hq]
  · intro hagree
    have a1 := hagree 1 (by decide) (by decide)
    have a2 := hagree 2 (by decide) (by decide)
    have a3 := hagree 3 (by decide) (by decide)
    rw [attemptList_eq]
    simp only [retryFrom, a1, a2, a3]

/-- Witness for C1 at `rateLimitQps = 0.5` with a call that fails on
attempts 1 and 2 and succeeds on attempt 3. -/
theorem C1_witness :
    ((fun a => if a < 3 then .error "boom" else .ok [9]) : Nat → Except String Bytes) 1
      = .error "boom"
    ∧ ((fun a => if a < 3 then .error "boom" else .ok [9]) : Nat → Except String Bytes) 2
      = .error "boom"
    ∧ ((fun a => if a < 3 then .error "boom" else .ok [9]) : Nat → Except String Bytes) 3
      = .ok [9]
    ∧ retryFrom (procDelay DEFAULT_RATE_LIMIT_QPS)
        (fun a => if a < 3 then .error "boom" else .ok [9]) attemptList
      = (.ok [9], [1, 2, 3],
          [procDelay DEFAULT_RATE_LIMIT_QPS * 1, procDelay DEFAULT_RATE_LIMIT_QPS * 2]) := by
  refine ⟨rfl, rfl, rfl, ?_⟩
  exact (C1_retry_budget DEFAULT_RATE_LIMIT_QPS
    (fun a => if a < 3 then .error "boom" else .ok [9])
    (fun a => if a < 3 then .error "boom" else .ok [9]) [9] "boom" "boom" "boom").1 rfl rfl rfl

theorem retryFrom_ok_first (d : ℚ) (call : Nat → Except String Bytes) (b : Bytes)
    (h : call 1 = .ok b) : retryFrom d call attemptList = (.ok b, [1], []) := by
  rw [attemptList_eq]
  simp [retryFrom, h]

theorem retryFrom_attempts_cons (d : ℚ) (call : Nat → Except String Bytes) :
    ∃ res as ss, retryFrom d call attemptList = (res, 1 :: as, ss) := by
  rw [attemptList_eq]
  cases h1 : call 1 with
  | ok b => exact ⟨.ok b, [], [], by simp [retryFrom, h1]⟩
  | error e1 =>
    cases h2 : call 2 with
    | ok b => exact ⟨.ok b, [2], [d * 1], by simp [retryFrom, h1, h2]⟩
    | error e2 =>
      cases h3 : call 3 with
      | ok b => exact ⟨.ok b, [2, 3], [d * 1, d * 2], by simp [retryFrom, h1, h2, h3]⟩
      | error e3 =>
        exact ⟨.error e3, [2, 3], [d * 1, d * 2], by simp [retryFrom, h1, h2, h3]⟩

theorem runUnits_fs_mono (delay : ℚ) (outcome : Nat → Nat → Except String Bytes)
    (outPath : Nat → FsPath) :
    ∀ (units : List Nat) (fs : Fs) (p : FsPath), (fs p).isSome = true →
      (((runUnits delay outcome outPath units fs).1) p).isSome = true := by
  intro units
  induction units with
  | nil => intro fs p h; exact h
  | cons u rest ih =>
    intro fs p h
    by_cases hskip : (fs (outPath u)).isSome = true
    · simp only [runUnits, hskip, if_true]
      exact ih fs p h
    · simp only [runUnits, hskip, if_false]
      rcases hr : retryFrom delay (outcome u) attemptList with ⟨res, as, ss⟩
      cases res with
      | ok b =>
        simp only [hr]
        refine ih (fsUpdate fs (outPath u) b) p ?_
        unfold fsUpdate
        by_cases hp : p = outPath u
        · simp [hp]
        · simp [hp, h]
      | error e => simp only [hr]; exact h

theorem runUnits_all_skip (delay : ℚ) (outcome : Nat → Nat → Except String Bytes)
    (outPath : Nat → FsPath) :
    ∀ (units : List Nat) (fs : Fs), (∀ u ∈ units, (fs (outPath u)).isSome = true) →
      runUnits delay outcome outPath units fs = (fs, [], true) := by
  intro units
  induction units with
  | nil => intro fs _; rfl
  | cons u rest ih =>
    intro fs h
    simp only [runUnits, h u (List.mem_cons_self u rest), if_true]
    exact ih fs (fun v hv => h v (List.mem_cons_of_mem u hv))

theorem runUnits_success (delay : ℚ) (outcome : Nat → Nat → Except String Bytes)
    (outPath : Nat → FsPath) (gen : Nat → Bytes)
    (hok : ∀ u, outcome u 1 = .ok (gen u)) :
    ∀ (units : List Nat) (fs : Fs),
      (runUnits delay outcome outPath units fs).2.2 = true
      ∧ ∀ u ∈ units, (((runUnits delay outcome outPath units fs).1) (outPath u)).isSome = true := by
  intro units
  induction units with
  | nil => intro fs; exact ⟨rfl, by simp⟩
  | cons u rest ih =>
    intro fs
    by_cases hskip : (fs (outPath u)).isSome = true
    · simp only [runUnits, hskip, if_true]
      refine ⟨(ih fs).1, ?_⟩
      intro v hv
      rcases List.mem_cons.mp hv with rfl | hv2
      · exact runUnits_fs_mono delay outcome outPath rest fs (outPath v) hskip
      · exact (ih fs).2 v hv2
    · simp only [runUnits, hskip, if_false, retryFrom_ok_first delay (outcome u) (gen u) (hok u)]
      refine ⟨(ih (fsUpdate fs (outPath u) (gen u))).1, ?_⟩
      intro v hv
      rcases List.mem_cons.mp hv with rfl | hv2
      · refine runUnits_fs_mono delay outcome outPath rest _ (outPath v) ?_
        simp [fsUpdate]
      · exact (ih (fsUpdate fs (outPath u) (gen u))).2 v hv2

/-- C3: a work unit is skipped exactly when a file already exists at its
output path (a skipped unit contributes nothing; a non-skipped unit
starts with provider call attempt 1), and a second run over the same
units with no provider failures leaves the filesystem unchanged,
performs zero provider calls, and completes. -/
theorem C3_skip_iff_idempotent (delay : ℚ) (outcome : Nat → Nat → Except String Bytes)
    (outPath : Nat → FsPath) (gen : Nat → Bytes) (units : List Nat) (fs : Fs)
    (u : Nat) (rest : List Nat) :
    ((fs (outPath u)).isSome = true →
      runUnits delay outcome outPath (u :: rest) fs = runUnits delay outcome outPath rest fs)
    ∧ (fs (outPath u) = none →
      (runUnits delay outcome outPath (u :: rest) fs).2.1.head? = some (u, 1))
    ∧ ((∀ v, outcome v 1 = .ok (gen v)) →
      (runUnits delay outcome outPath units fs).2.2 = true
      ∧ runUnits delay outcome outPath units (runUnits delay outcome outPath units fs).1
          = ((runUnits delay outcome outPath units fs).1, [], true)) := by
  refine ⟨?_, ?_, ?_⟩
  · intro h
    simp only [runUnits, h, if_true]
  · intro hnone
    have hskip : (fs (outPath u)).isSome = false := by rw [hnone]; rfl
    simp only [runUnits, hskip, Bool.false_eq_true, if_false]
    obtain ⟨res, as, ss, hr⟩ := retryFrom_attempts_cons delay (outcome u)
    cases res with
    | ok b => simp [hr]
    | error e => simp [hr]
  · intro hok
    refine ⟨(runUnits_success delay outcome outPath gen hok units fs).1, ?_⟩
    exact runUnits_all_skip delay outcome outPath units _
      (fun v hv => (runUnits_success delay outcome outPath gen hok units fs).2 v hv)

/-- Witness for C3 with one unit, an initially empty filesystem and an
always-successful provider. -/
theorem C3_witness :
    ((fun _ => none : Fs) (["out"] : FsPath)) = none
    ∧ (runUnits 0 (fun _ _ => .ok [1]) (fun _ => ["out"]) [0] (fun _ => none)).2.1.head?
        = some (0, 1)
    ∧ runUnits 0 (fun _ _ => .ok [1]) (fun _ => ["out"]) [0]
        (runUnits 0 (fun _ _ => .ok [1]) (fun _ => ["out"]) [0] (fun _ => none)).1
      = ((runUnits 0 (fun _ _ => .ok [1]) (fun _ => ["out"]) [0] (fun _ => none)).1, [], true) := by
  refine ⟨rfl, ?_, ?_⟩
  · exact (C3_skip_iff_idempotent 0 (fun _ _ => .ok [1]) (fun _ => ["out"]) (fun _ => [1])
      [0] (fun _ => none) 0 []).2.1 rfl
  · exact ((C3_skip_iff_idempotent 0 (fun _ _ => .ok [1]) (fun _ => ["out"]) (fun _ => [1])
      [0] (fun _ => none) 0 []).2.2 (fun v => rfl)).2

/-- C4 counterexample: with two units where the first exhausts its
retries and the second would succeed, the run ends after the three
calls of the first unit: it is marked aborted, performs no call for the
second unit, and writes no output for it — the loop does not continue
with the remaining units. -/
theorem C4_fault_isolation_counterexample :
    (runUnits 0 (fun u _ => if u = 0 then .error "boom" else .ok [1])
        (fun u => [if u = 0 then "a" else "b"]) [0, 1] (fun _ => none)).2.1
      = [(0, 1), (0, 2), (0, 3)]
    ∧ (runUnits 0 (fun u _ => if u = 0 then .error "boom" else .ok [1])
        (fun u => [if u = 0 then "a" else "b"]) [0, 1] (fun _ => none)).2.2 = false
    ∧ (runUnits 0 (fun u _ => if u = 0 then .error "boom" else .ok [1])
        (fun u => [if u = 0 then "a" else "b"]) [0, 1] (fun _ => none)).1 ["b"] = none := by
  exact ⟨rfl, rfl, rfl⟩

/-- C4 (amended): when a unit exhausts its retries the failure
propagates out of the orchestrating loop and aborts the entire run; the
result does not depend on the remaining units, which are never
processed in that invocation. -/
theorem C4_run_aborts (delay : ℚ) (outcome : Nat → Nat → Except String Bytes)
    (outPath : Nat → FsPath) (fs : Fs) (u : Nat) (rest : List Nat) (e1 e2 e3 : String)
    (hnone : fs (outPath u) = none) (h1 : outcome u 1 = .error e1)
    (h2 : outcome u 2 = .error e2) (h3 : outcome u 3 = .error e3) :
    runUnits delay outcome outPath (u :: rest) fs = (fs, [(u, 1), (u, 2), (u, 3)], false) := by
  have hskip : (fs (outPath u)).isSome = false := by rw [hnone]; rfl
  simp only [runUnits, hskip, Bool.false_eq_true, if_false, attemptList_eq]
  simp [retryFrom, h1, h2, h3]

/-- Witness for C4 with one failing unit followed by one unprocessed
unit. -/
theorem C4_witness :
    ((fun _ => none : Fs) (["x"] : FsPath)) = none
    ∧ runUnits 0 (fun _ _ => .error "down") (fun _ => ["x"]) [5, 6] (fun _ => none)
        = ((fun _ => none : Fs), [(5, 1), (5, 2), (5, 3)], false) := by
  refine ⟨rfl, ?_⟩
  exact C4_run_aborts 0 (fun _ _ => .error "down") (fun _ => ["x"]) (fun _ => none)
    5 [6] "down" "down" "down" rfl rfl rfl rfl

theorem cacheRun_spec (fc : FsPath → String × String) :
    ∀ (requests : List FsPath) (cache : List (FsPath × PromptTemplate)),
      (∀ e ∈ cache, e.2 = load_prompt_template fc e.1) →
      ((cacheRun fc requests cache).1.map Prod.fst
          = requests.map (load_prompt_template fc))
      ∧ (∀ e ∈ (cacheRun fc requests cache).2, e.2 = load_prompt_template fc e.1)
      ∧ (∀ p, (loadedPaths fc requests cache).count p
          = if p ∈ requests ∧ (∀ e ∈ cache, e.1 ≠ p) then 1 else 0) := by
  intro requests
  induction requests with
  | nil =>
    intro cache hinv
    refine ⟨rfl, hinv, ?_⟩
    intro p
    simp [loadedPaths]
  | cons q ps ih =>
    intro cache hinv
    cases hfind : cache.find? (fun e => e.1 = q) with
    | some e =>
      have hpred : e.1 = q := by
        have := List.find?_some hfind
        simpa using this
      have hmem : e ∈ cache := List.mem_of_find?_eq_some hfind
      have hval : e.2 = load_prompt_template fc q := by
        rw [hinv e hmem, hpred]
      obtain ⟨hmap, hinv2, hcount⟩ := ih cache hinv
      refine ⟨?_, ?_, ?_⟩
      · simp only [cacheRun, cacheStep, hfind, List.map_cons, hval, hmap]
      · simp only [cacheRun, cacheStep, hfind]
        exact hinv2
      · intro p
        simp only [loadedPaths, cacheStep, hfind, Bool.false_eq_true, if_false,
          List.nil_append]
        rw [hcount p]
        by_cases hpq : p = q
        · have hE : e.1 = p := by rw [hpred, hpq]
          rw [if_neg (fun h => h.2 e hmem hE), if_neg (fun h => h.2 e hmem hE)]
        · exact if_congr (and_congr_left' (by simp [List.mem_cons, hpq])) rfl rfl
    | none =>
      have hnone : ∀ e ∈ cache, e.1 ≠ q := by
        intro e he
        have := List.find?_eq_none.mp hfind e he
        simpa using this
      have hinv2 : ∀ e ∈ (q, load_prompt_template fc q) :: cache,
          e.2 = load_prompt_template fc e.1 := by
        intro e he
        rcases List.mem_cons.mp he with rfl | he2
        · rfl
        · exact hinv e he2
      obtain ⟨hmap, hinvout, hcount⟩ := ih ((q, load_prompt_template fc q) :: cache) hinv2
      refine ⟨?_, ?_, ?_⟩
      · simp only [cacheRun, cacheStep, hfind, List.map_cons, hmap]
      · simp only [cacheRun, cacheStep, hfind]
        exact hinvout
      · intro p
        simp only [loadedPaths, cacheStep, hfind, if_true, List.cons_append, List.nil_append,
          List.count_cons, beq_iff_eq]
        rw [hcount p]
        by_cases hpq : p = q
        · have h1 : ¬ (p ∈ ps ∧ ∀ e ∈ (q, load_prompt_template fc q) :: cache, e.1 ≠ p) := by
            rintro ⟨-, hall⟩
            exact hall (q, load_prompt_template fc q) (List.mem_cons_self _ _) hpq.symm
          have h2 : p ∈ q :: ps ∧ ∀ e ∈ cache, e.1 ≠ p :=
            ⟨by simp [hpq], fun e he => hpq ▸ (hnone e he)⟩
          rw [if_neg h1, if_pos h2, if_pos hpq.symm]
        · have h2 : (p ∈ ps ∧ ∀ e ∈ (q, load_prompt_template fc q) :: cache, e.1 ≠ p)
              ↔ (p ∈ q :: ps ∧ ∀ e ∈ cache, e.1 ≠ p) := by
            constructor
            · rintro ⟨hm, hall⟩
              exact ⟨List.mem_cons_of_mem _ hm,
                fun e he => hall e (List.mem_cons_of_mem _ he)⟩
            · rintro ⟨hm, hall⟩
              refine ⟨?_, ?_⟩
              · rcases List.mem_cons.mp hm with rfl | hm2
                · exact absurd rfl hpq
                · exact hm2
              · intro e he
                rcases List.mem_cons.mp he with rfl | he2
                · simpa using fun hq => hpq hq.symm
                · exact hall e he2
          rw [if_congr h2 rfl rfl, if_neg (fun h : q = p => hpq h.symm)]
          simp

theorem veoRunLoads_single (n : String) (p : FsPath)
    (framesOf : String → String → Option (List String)) :
    ∀ (scenes : List String),
      (∀ s ∈ scenes, ∃ raw, framesOf s n = some raw
        ∧ (list_variant_frames raw).isEmpty = false) →
      veoRunLoads [(n, p)] framesOf scenes = scenes.map (fun _ => p) := by
  intro scenes
  induction scenes with
  | nil => intro _; rfl
  | cons s rest ih =>
    intro hproc
    obtain ⟨raw, hsome, hne⟩ := hproc s (List.mem_cons_self s rest)
    have hne2 : list_variant_frames raw ≠ [] := by
      intro hnil
      rw [hnil] at hne
      simp at hne
    have hscene : veoSceneLoads [(n, p)] framesOf s = [p] := by
      simp [veoSceneLoads, hsome, hne2]
    have hrest := ih (fun s2 hs2 => hproc s2 (List.mem_cons_of_mem s hs2))
    simp only [veoRunLoads, List.map_cons, List.flatten_cons] at hrest ⊢
    rw [hscene, hrest]
    rfl

/-- C5 counterexample: the video orchestrator loads prompts uncached —
with one variant whose prompt path is shared by two scenes, the run
reads that path once per scene, twice in total, refuting the
at-most-one-load-per-path claim at its own cited call site. -/
theorem C5_shared_prompt_reread_counterexample :
    veoRunLoads [("sunny", ["p.yaml"])] (fun _ _ => some ["x.png"]) ["scene1", "scene2"]
      = [["p.yaml"], ["p.yaml"]]
    ∧ ¬ ((veoRunLoads [("sunny", ["p.yaml"])] (fun _ _ => some ["x.png"])
          ["scene1", "scene2"]).count ["p.yaml"] ≤ 1) := by
  constructor
  · rfl
  · decide

/-- C5 (amended): the dict-backed caches of `gemini_weather_pipeline`
and `gemini_weather_pairs` load the template for a given path at most
once per run — every access returns the trimmed template of its path,
each requested path is loaded exactly once over the run, and
unrequested paths are never loaded — whereas
`veo_video_batch.process_scene_folder` calls `load_prompt_text`
uncached, so a variant prompt path is read once per scene in which that
variant has frames. -/
theorem C5_prompt_loading (fc : FsPath → String × String) (requests : List FsPath)
    (n : String) (p : FsPath) (framesOf : String → String → Option (List String))
    (scenes : List String)
    (hproc : ∀ s ∈ scenes, ∃ raw, framesOf s n = some raw
      ∧ (list_variant_frames raw).isEmpty = false) :
    ((cacheRun fc requests []).1.map Prod.fst = requests.map (load_prompt_template fc))
    ∧ (∀ q ∈ requests, (loadedPaths fc requests []).count q = 1)
    ∧ (∀ q, q ∉ requests → (loadedPaths fc requests []).count q = 0)
    ∧ veoRunLoads [(n, p)] framesOf scenes = scenes.map (fun _ => p) := by
  have h := cacheRun_spec fc requests [] (by simp)
  refine ⟨h.1, ?_, ?_, veoRunLoads_single n p framesOf scenes hproc⟩
  · intro q hq
    have hc := h.2.2 q
    rw [if_pos ⟨hq, by simp⟩] at hc
    exact hc
  · intro q hq
    have hc := h.2.2 q
    rw [if_neg (fun hcon => hq hcon.1)] at hc
    exact hc

/-- Witness for C5 with one variant processed in two scenes. -/
theorem C5_witness :
    (∀ s ∈ (["scene1", "scene2"] : List String), ∃ raw,
        ((fun _ _ => some ["x.png"]) : String → String → Option (List String)) s "sunny"
          = some raw
        ∧ (list_variant_frames raw).isEmpty = false)
    ∧ veoRunLoads [("sunny", ["p.yaml"])] (fun _ _ => some ["x.png"]) ["scene1", "scene2"]
        = (["scene1", "scene2"] : List String).map (fun _ => (["p.yaml"] : FsPath)) := by
  refine ⟨?_, ?_⟩
  · intro s _
    exact ⟨["x.png"], rfl, rfl⟩
  · exact (C5_prompt_loading (fun _ => ("", "")) [] "sunny" ["p.yaml"]
      (fun _ _ => some ["x.png"]) ["scene1", "scene2"]
      (fun s _ => ⟨["x.png"], rfl, rfl⟩)).2.2.2

theorem pollLoop_terminates (interval : ℚ) (getOp : Nat → VeoOperation) :
    ∀ (n fuel k : ℕ) (op : VeoOperation), op.done = false →
      (∀ j, j < n → (getOp (k + j)).done = false) → (getOp (k + n)).done = true →
      n < fuel →
      pollLoop interval getOp fuel op k
        = some (getOp (k + n), k + n + 1, List.replicate (k + n + 1) interval) := by
  intro n
  induction n with
  | zero =>
    intro fuel k op hop hpend hdone hfuel
    cases fuel with
    | zero => omega
    | succ f =>
      rw [pollLoop, if_neg (by simp [hop])]
      cases f with
      | zero =>
        rw [pollLoop, if_pos (by simpa using hdone)]
        simp
      | succ f2 =>
        rw [pollLoop, if_pos (by simpa using hdone)]
        simp
  | succ m ih =>
    intro fuel k op hop hpend hdone hfuel
    cases fuel with
    | zero => omega
    | succ f =>
      have h0 : (getOp k).done = false := by
        simpa using hpend 0 (Nat.succ_pos m)
      have hpend2 : ∀ j, j < m → (getOp (k + 1 + j)).done = false := by
        intro j hj
        have := hpend (j + 1) (by omega)
        simpa [Nat.add_assoc, Nat.add_comm 1 j] using this
      have hdone2 : (getOp (k + 1 + m)).done = true := by
        have := hdone
        simpa [Nat.add_assoc, Nat.add_comm 1 m] using this
      have heq : k + (m + 1) = k + 1 + m := by omega
      rw [pollLoop, if_neg (by simp [hop])]
      rw [heq]
      exact ih f (k + 1) (getOp k) h0 hpend2 hdone2 (by omega)

/-- C8: the poller sleeps one interval then re-queries while the
operation is not done, stopping at the first poll reporting done — with
the operation pending on submission and on the first `n` polls and done
on poll `n` (zero-based), exactly `n + 1` poll calls and `n + 1` sleeps
of one interval occur; and when the terminal operation carries inline
bytes `X` without error, materialization succeeds with `X` and the
output file content equals `X`. -/
theorem C8_poller_stops_and_writes (interval : ℚ) (getOp : Nat → VeoOperation)
    (fetch : String → Bytes) (op0 : VeoOperation) (n fuel : ℕ) (outPath : FsPath)
    (fs : Fs) (X : Bytes) (hop : op0.done = false)
    (hpend : ∀ j, j < n → (getOp j).done = false) (hdone : (getOp n).done = true)
    (hfuel : n < fuel) (hX : X ≠ []) :
    pollLoop interval getOp fuel op0 0
      = some (getOp n, n + 1, List.replicate (n + 1) interval)
    ∧ ((getOp n).error = none → (getOp n).videos = some [⟨some X, none⟩] →
        materialize fetch (getOp n) = .ok X
        ∧ run_generation_write outPath fs (materialize fetch (getOp n)) outPath = some X) := by
  constructor
  · have := pollLoop_terminates interval getOp n fuel 0 op0 hop
      (by simpa using hpend) (by simpa using hdone) hfuel
    simpa using this
  · intro herr hvids
    have hmat : materialize fetch (getOp n) = .ok X := by
      unfold materialize
      rw [herr, hvids]
      have hbt : bytesTruthy (some X) = true := by
        simp [bytesTruthy, hX]
      simp [hbt]
    refine ⟨hmat, ?_⟩
    rw [hmat]
    simp [run_generation_write, fsUpdate]

/-- Witness for C8: the operation is pending on submission and for the
first two polls, done with inline bytes `[42]` on the third poll:
exactly 3 poll calls, and the output file content is `[42]`. -/
theorem C8_witness :
    (⟨false, none, none⟩ : VeoOperation).done = false
    ∧ (∀ j, j < 2 →
        ((fun k => if k < 2 then ⟨false, none, none⟩
            else ⟨true, none, some [⟨some [42], none⟩]⟩ : Nat → VeoOperation) j).done = false)
    ∧ ((fun k => if k < 2 then ⟨false, none, none⟩
          else ⟨true, none, some [⟨some [42], none⟩]⟩ : Nat → VeoOperation) 2).done = true
    ∧ pollLoop 10 (fun k => if k < 2 then ⟨false, none, none⟩
          else ⟨true, none, some [⟨some [42], none⟩]⟩) 5 ⟨false, none, none⟩ 0
        = some (⟨true, none, some [⟨some [42], none⟩]⟩, 3, List.replicate 3 10)
    ∧ run_generation_write ["clip.mp4"] (fun _ => none)
        (materialize (fun _ => [])
          ((fun k => if k < 2 then ⟨false, none, none⟩
              else ⟨true, none, some [⟨some [42], none⟩]⟩ : Nat → VeoOperation) 2)) ["clip.mp4"]
      = some [42] := by
  have h := C8_poller_stops_and_writes 10
    (fun k => if k < 2 then ⟨false, none, none⟩ else ⟨true, none, some [⟨some [42], none⟩]⟩)
    (fun _ => []) ⟨false, none, none⟩ 2 5 ["clip.mp4"] (fun _ => none) [42]
    rfl (by decide) rfl (by decide) (by decide)
  refine ⟨rfl, by decide, rfl, ?_, ?_⟩
  · simpa using h.1
  · exact (h.2 rfl rfl).2

theorem unitAttemptsT_spec (d : ℚ) (dur : Nat → ℚ) (ok : Nat → Bool)
    (hd : 0 ≤ d) (hdur : ∀ a, 0 ≤ dur a) :
    ∀ (as : List Nat) (t : ℚ), (∀ a ∈ as, 1 ≤ a) →
      List.Chain' (fun x y => x + d ≤ y) (unitAttemptsT d dur ok as t).1
      ∧ (∀ e ∈ (unitAttemptsT d dur ok as t).1, t ≤ e)
      ∧ (∀ t1, (unitAttemptsT d dur ok as t).2 = some t1 →
          (∀ e ∈ (unitAttemptsT d dur ok as t).1, e ≤ t1) ∧ t ≤ t1) := by
  intro as
  induction as with
  | nil =>
    intro t _
    refine ⟨by simp [unitAttemptsT], by simp [unitAttemptsT], ?_⟩
    intro t1 h
    simp only [unitAttemptsT, Option.some.injEq] at h
    subst h
    exact ⟨by simp [unitAttemptsT], le_refl t⟩
  | cons a rest ih =>
    intro t hge
    have ha : 1 ≤ a := hge a (List.mem_cons_self a rest)
    have hda : d ≤ d * (a : ℚ) := by
      have h1 : (1 : ℚ) ≤ (a : ℚ) := by exact_mod_cast ha
      calc d = d * 1 := (mul_one d).symm
        _ ≤ d * (a : ℚ) := mul_le_mul_of_nonneg_left h1 hd
    by_cases hok : ok a = true
    · have hres : unitAttemptsT d dur ok (a :: rest) t = ([t], some (t + dur a)) := by
        cases rest with
        | nil => simp [unitAttemptsT, hok]
        | cons r rs => simp [unitAttemptsT, hok]
      rw [hres]
      refine ⟨by simp, by simp, ?_⟩
      intro t1 h
      simp only [Option.some.injEq] at h
      subst h
      refine ⟨?_, by linarith [hdur a]⟩
      intro e he
      simp only [List.mem_singleton] at he
      subst he
      linarith [hdur a]
    · cases rest with
      | nil =>
        refine ⟨by simp [unitAttemptsT, hok], by simp [unitAttemptsT, hok], ?_⟩
        intro t1 h
        simp [unitAttemptsT, hok] at h
      | cons r rs =>
        have hge2 : ∀ b ∈ r :: rs, 1 ≤ b := fun b hb => hge b (List.mem_cons_of_mem a hb)
        have hrec := ih (t + dur a + d * (a : ℚ)) hge2
        rcases hr : unitAttemptsT d dur ok (r :: rs) (t + dur a + d * (a : ℚ)) with ⟨es, fin⟩
        rw [hr] at hrec
        have hres : unitAttemptsT d dur ok (a :: r :: rs) t = (t :: es, fin) := by
          simp [unitAttemptsT, hok, hr]
        rw [hres]
        have hstart : ∀ e ∈ es, t + dur a + d * (a : ℚ) ≤ e := hrec.2.1
        refine ⟨?_, ?_, ?_⟩
        · rw [List.chain'_cons']
          refine ⟨?_, hrec.1⟩
          intro y hy
          have hmem : y ∈ es := by
            cases es with
            | nil => simp at hy
            | cons z zs =>
              simp only [List.head?_cons, Option.mem_some_iff] at hy
              subst hy
              exact List.mem_cons_self z zs
          have := hstart y hmem
          have h0 : 0 ≤ dur a := hdur a
          linarith
        · intro e he
          rcases List.mem_cons.mp he with rfl | he2
          · exact le_refl e
          · have := hstart e he2
            have h0 : 0 ≤ dur a := hdur a
            linarith
        · intro t1 hfin
          have hb := hrec.2.2 t1 hfin
          constructor
          · intro e he
            rcases List.mem_cons.mp he with rfl | he2
            · have h0 : 0 ≤ dur a := hdur a
              linarith [hb.2]
            · exact hb.1 e he2
          · have h0 : 0 ≤ dur a := hdur a
            linarith [hb.2]

theorem runTimed_spec (d : ℚ) (skip : Nat → Bool) (dur : Nat → Nat → ℚ)
    (ok : Nat → Nat → Bool) (hd : 0 ≤ d) (hdur : ∀ u a, 0 ≤ dur u a) :
    ∀ (units : List Nat) (t : ℚ),
      List.Chain' (fun x y => x + d ≤ y) (runTimed d skip dur ok units t).1
      ∧ ∀ e ∈ (runTimed d skip dur ok units t).1, t ≤ e := by
  intro units
  induction units with
  | nil => intro t; exact ⟨by simp [runTimed], by simp [runTimed]⟩
  | cons u rest ih =>
    intro t
    by_cases hsk : skip u = true
    · have hres : runTimed d skip dur ok (u :: rest) t = runTimed d skip dur ok rest t := by
        simp [runTimed, hsk]
      rw [hres]
      exact ih t
    · have hatt : ∀ a ∈ attemptList, 1 ≤ a := by decide
      have hu := unitAttemptsT_spec d (dur u) (ok u) hd (hdur u) attemptList t hatt
      rcases hr : unitAttemptsT d (dur u) (ok u) attemptList t with ⟨es, fin⟩
      rw [hr] at hu
      cases fin with
      | none =>
        have hres : runTimed d skip dur ok (u :: rest) t = (es, none) := by
          simp [runTimed, hsk, hr]
        rw [hres]
        exact ⟨hu.1, hu.2.1⟩
      | some t1 =>
        have hrest := ih (t1 + d)
        rcases hr2 : runTimed d skip dur ok rest (t1 + d) with ⟨es2, fin2⟩
        rw [hr2] at hrest
        have hres : runTimed d skip dur ok (u :: rest) t = (es ++ es2, fin2) := by
          simp [runTimed, hsk, hr, hr2]
        rw [hres]
        have hbound := hu.2.2 t1 rfl
        constructor
        · refine List.Chain'.append hu.1 hrest.1 ?_
          intro x hx y hy
          have hxmem : x ∈ es := List.mem_of_mem_getLast? hx
          have hymem : y ∈ es2 := by
            cases es2 with
            | nil => simp at hy
            | cons z zs =>
              simp only [List.head?_cons, Option.mem_some_iff] at hy
              subst hy
              exact List.mem_cons_self z zs
          have hx1 : x ≤ t1 := hbound.1 x hxmem
          have hy1 : t1 + d ≤ y := hrest.2 y hymem
          linarith
        · intro e he
          rcases List.mem_append.mp he with he1 | he2
          · exact hu.2.1 e he1
          · have := hrest.2 e he2
            have ht1 : t ≤ t1 := hbound.2
            linarith

theorem chain_sep_span (d : ℚ) (l : List ℚ)
    (hc : List.Chain' (fun x y => x + d ≤ y) l) :
    ∀ (k i : ℕ) (h1 : i < l.length) (h2 : i + k < l.length),
      l.get ⟨i, h1⟩ + (k : ℚ) * d ≤ l.get ⟨i + k, h2⟩ := by
  intro k
  induction k with
  | zero => intro i h1 h2; simp
  | succ m ih =>
    intro i h1 h2
    have h3 : i + m < l.length := by omega
    have h4 : i + m < l.length - 1 := by omega
    have hstep := List.chain'_iff_get.mp hc (i + m) h4
    have hih := ih i h1 h3
    calc l.get ⟨i, h1⟩ + ((m + 1 : ℕ) : ℚ) * d
        = (l.get ⟨i, h1⟩ + (m : ℚ) * d) + d := by push_cast; ring
      _ ≤ l.get ⟨i + m, h3⟩ + d := by linarith
      _ ≤ l.get ⟨i + (m + 1), h2⟩ := hstep

theorem procDelay_half : procDelay (1 / 2) = 2 := by
  unfold procDelay
  rw [max_eq_left (by norm_num)]
  norm_num

/-- C9 counterexample: at `rateLimitQps = 1e-7` the code sleeps
`1 / max(qps, 1e-6) = 1e6` seconds between the two call starts, which
is less than the `1 / qps = 1e7` seconds the claim requires: the trace
of two immediately-successful units has call starts at 0 and 1e6. -/
theorem C9_rate_limit_counterexample :
    (runTimed (procDelay (1 / 10000000)) (fun _ => false) (fun _ _ => 0)
        (fun _ _ => true) [0, 1] 0).1 = [0, 1000000]
    ∧ ¬ ((0 : ℚ) + 1 / (1 / 10000000) ≤ 1000000) := by
  have hd : procDelay (1 / 10000000) = 1000000 := by
    unfold procDelay
    rw [max_eq_right (by norm_num)]
    norm_num
  constructor
  · rw [hd]
    norm_num [runTimed, unitAttemptsT, attemptList_eq]
  · norm_num

/-- C9 (amended: the guaranteed spacing is `1 / max(rateLimitQps, 1e-6)`
seconds, which equals `1 / rateLimitQps` for every rate of at least
1e-6 qps): successive provider-call start times in any run are
separated by at least the inter-call delay, with no bursts; at
`rateLimitQps = 0.5` the delay is 2.0 seconds and any two call starts
`k` apart differ by at least `k * 2.0` seconds. -/
theorem C9_rate_limit_spacing (qps : ℚ) (skip : Nat → Bool) (dur : Nat → Nat → ℚ)
    (ok : Nat → Nat → Bool) (units : List Nat) (t0 : ℚ)
    (hdur : ∀ u a, 0 ≤ dur u a) :
    List.Chain' (fun x y => x + procDelay qps ≤ y)
      (runTimed (procDelay qps) skip dur ok units t0).1
    ∧ ((1 : ℚ) / 1000000 ≤ qps → procDelay qps = 1 / qps)
    ∧ (qps = 1 / 2 →
        ∀ (k i : ℕ)
          (h1 : i < (runTimed (procDelay qps) skip dur ok units t0).1.length)
          (h2 : i + k < (runTimed (procDelay qps) skip dur ok units t0).1.length),
          (runTimed (procDelay qps) skip dur ok units t0).1.get ⟨i, h1⟩ + (k : ℚ) * 2
            ≤ (runTimed (procDelay qps) skip dur ok units t0).1.get ⟨i + k, h2⟩) := by
  have hchain := (runTimed_spec (procDelay qps) skip dur ok (procDelay_pos qps).le hdur
    units t0).1
  refine ⟨hchain, ?_, ?_⟩
  · intro hq
    unfold procDelay
    rw [max_eq_left hq]
  · intro hq k i h1 h2
    subst hq
    have hspan := chain_sep_span (procDelay (1 / 2)) _ hchain k i h1 h2
    have hmul : (k : ℚ) * 2 = (k : ℚ) * procDelay (1 / 2) := by rw [procDelay_half]
    rw [hmul]
    exact hspan

/-- Witness for C9 at `rateLimitQps = 0.5` with two immediately
successful units and zero-duration calls. -/
theorem C9_witness :
    (∀ u a : Nat, (0 : ℚ) ≤ (fun _ _ => (0 : ℚ)) u a)
    ∧ List.Chain' (fun x y => x + procDelay (1 / 2) ≤ y)
        (runTimed (procDelay (1 / 2)) (fun _ => false) (fun _ _ => 0)
          (fun _ _ => true) [0, 1] 0).1 := by
  refine ⟨fun u a => le_refl 0, ?_⟩
  exact (C9_rate_limit_spacing (1 / 2) (fun _ => false) (fun _ _ => 0)
    (fun _ _ => true) [0, 1] 0 (fun u a => le_refl 0)).1

theorem sortNames_sorted (l : List String) : List.Sorted sLe (sortNames l) :=
  List.sorted_insertionSort sLe l

theorem sortNames_perm (l : List String) : (sortNames l).Perm l :=
  List.perm_insertionSort sLe l

theorem sortNames_eq_of_perm {l1 l2 : List String} (h : l1.Perm l2) :
    sortNames l1 = sortNames l2 :=
  List.eq_of_perm_of_sorted (((sortNames_perm l1).trans h).trans (sortNames_perm l2).symm)
    (sortNames_sorted l1) (sortNames_sorted l2)

theorem pick_reference_frames_ok (frames : List String) (h : frames ≠ []) :
    ∃ pr, pick_reference_frames frames = .ok pr := by
  obtain ⟨f, fs, rfl⟩ := List.exists_cons_of_ne_nil h
  exact ⟨_, rfl⟩

/-- C10: work-unit enumeration is deterministic — the three listers are
invariant under permutation of the raw directory listing (the
operating-system order) and always produce sorted output, scene
processing selects the same reference frames for permuted raw listings,
and the frame selector is only ever invoked on a non-empty list, so
within `process_scene_folder` its error branch is unreachable: every
produced selection is a success value. -/
theorem C10_enumeration_deterministic (entries entries2 : List String)
    (isFile isDir : String → Bool) (variants : List String)
    (framesOf framesOf2 : String → Option (List String))
    (hperm : entries.Perm entries2)
    (hfperm : ∀ v, (framesOf v = none ∧ framesOf2 v = none)
      ∨ ∃ l l2, framesOf v = some l ∧ framesOf2 v = some l2 ∧ l.Perm l2) :
    iter_images entries isFile = iter_images entries2 isFile
    ∧ group_folders entries isDir = group_folders entries2 isDir
    ∧ list_variant_frames entries = list_variant_frames entries2
    ∧ List.Sorted sLe (iter_images entries isFile)
    ∧ List.Sorted sLe (group_folders entries isDir)
    ∧ List.Sorted sLe (list_variant_frames entries)
    ∧ processSceneRefs variants framesOf = processSceneRefs variants framesOf2
    ∧ (∀ r ∈ processSceneRefs variants framesOf, ∃ pr, r = .ok pr) := by
  refine ⟨?_, ?_, ?_, ?_, ?_, ?_, ?_, ?_⟩
  · unfold iter_images
    rw [sortNames_eq_of_perm hperm]
  · unfold group_folders
    rw [sortNames_eq_of_perm (hperm.filter isDir)]
  · unfold list_variant_frames
    rw [sortNames_eq_of_perm (hperm.filter (fun p => isImageName p))]
  · exact (sortNames_sorted entries).filter _
  · exact sortNames_sorted _
  · exact sortNames_sorted _
  · unfold processSceneRefs
    refine List.filterMap_congr ?_
    intro v _
    rcases hfperm v with ⟨h1, h2⟩ | ⟨l, l2, h1, h2, hp⟩
    · rw [h1, h2]
    · have heq : list_variant_frames l = list_variant_frames l2 := by
        unfold list_variant_frames
        rw [sortNames_eq_of_perm (hp.filter (fun p => isImageName p))]
      simp only [h1, h2, heq]
  · intro r hr
    unfold processSceneRefs at hr
    rcases List.mem_filterMap.mp hr with ⟨v, -, hv⟩
    cases hfv : framesOf v with
    | none => simp only [hfv] at hv; cases hv
    | some raw =>
      simp only [hfv] at hv
      by_cases hempty : (list_variant_frames raw).isEmpty = true
      · rw [if_pos hempty] at hv
        cases hv
      · rw [if_neg hempty] at hv
        have hre : r = pick_reference_frames (list_variant_frames raw) :=
          (Option.some.injEq _ _ ▸ hv).symm
        rw [hre]
        refine pick_reference_frames_ok _ ?_
        intro hnil
        rw [hnil] at hempty
        exact hempty rfl

/-- Witness for C10 with a two-element listing in reversed
operating-system order and a scene with one variant folder holding one
frame. -/
theorem C10_witness :
    (["b.png", "a.png"] : List String).Perm ["a.png", "b.png"]
    ∧ iter_images ["b.png", "a.png"] (fun _ => true)
        = iter_images ["a.png", "b.png"] (fun _ => true)
    ∧ (∀ r ∈ processSceneRefs ["sunny"] (fun _ => some ["x.png"]), ∃ pr, r = .ok pr) := by
  have h := C10_enumeration_deterministic ["b.png", "a.png"] ["a.png", "b.png"]
    (fun _ => true) (fun _ => true) ["sunny"] (fun _ => some ["x.png"])
    (fun _ => some ["x.png"]) (by decide)
    (fun v => Or.inr ⟨["x.png"], ["x.png"], rfl, rfl, List.Perm.refl _⟩)
  exact ⟨by decide, h.1, h.2.2.2.2.2.2.2⟩

end Orchestrator
